import Mathlib

/-!
Shallow embedding of the TD control algorithms of `PyPi/algorithms/td.py`
and of the observation callback of `PyPi/utils/callbacks.py`
(pearl-robot-lab/mushroom-rl, early `PyPi` package), with theorems settling
the specification claims.

Conventions of the embedding:

* States and actions are integers; approximator predictions, rewards and
  learning rates are rationals (exact arithmetic in place of floats).  The
  standard-deviation statistics of Weighted Q-Learning, which go through a
  square root, live in `ℝ`.
* A numpy array indexed by a state-action pair is a total function from the
  pair.  The idiom `x[sa]` with `sa = [state, action]` is the (numpy-era)
  list-as-tuple indexing `x[state, action]`.
* External randomness (`np.random.uniform`, `np.random.normal`) is passed in
  explicitly as an argument of the function that consumed it.
* Fallible code returns `Option` or `Except`.
* External collaborators (approximator, learning-rate schedule, policy) enter
  as function-valued parameters or small records mirroring the interface the
  source calls.
-/

/-- Python exceptions raised by the embedded code paths. -/
inductive PyErr
  | attributeError
  | valueError
  | assertionError
  | notImplementedError
deriving Repr, DecidableEq

/-- One observed transition `(state, action, reward, next_state, absorbing)`.
The trailing `info` entry of the source tuple is never read by the algorithms
and is omitted.  Field extraction follows the spec's Transition record for
`parse_dataset` (`PyPi.utils.dataset`, not in `src/`): `parse_dataset
([dataset[-1]])` unpacks the last transition into its components. -/
structure Transition where
  state : ℤ
  action : ℤ
  reward : ℚ
  next_state : ℤ
  absorbing : Bool
deriving Repr, DecidableEq

/-- `TD.fit(dataset)`: the single-step update shared by `QLearning` and
`SARSA`.  The approximator's `predict`, the learning-rate schedule and the
subclass resolver `_next_q` are parameters; the returned pair is the
`([state, action], q)` argument pair passed to `approximator.fit`.  The
Python `dataset[-1]` on an empty list raises, hence `Option`. -/
def TD.fit (predict learning_rate : ℤ × ℤ → ℚ) (gamma : ℚ) (next_q : ℤ → ℚ)
    (dataset : List Transition) : Option ((ℤ × ℤ) × ℚ) := do
  let t ← dataset.getLast?
  let sa := (t.state, t.action)
  let q_current := predict sa
  let q_next := if t.absorbing then 0 else next_q t.next_state
  let q := q_current + learning_rate sa *
    (t.reward + gamma * q_next - q_current)
  pure (sa, q)

/-- Claim C3: `TD.fit` reads only the last transition of the dataset and
fits the approximator at `[state, action]` with
`q_new = q_current + alpha * (reward + gamma * q_next - q_current)` where
`q_next` is `0` on an absorbing transition and the resolver's value
otherwise; with a zero approximator and an absorbing transition,
`q_new = alpha * reward`. -/
theorem td_fit_uses_last_transition (predict learning_rate : ℤ × ℤ → ℚ)
    (gamma : ℚ) (next_q : ℤ → ℚ) (dataset : List Transition) (t : Transition)
    (h : dataset.getLast? = some t) :
    TD.fit predict learning_rate gamma next_q dataset =
      some ((t.state, t.action),
        predict (t.state, t.action) + learning_rate (t.state, t.action) *
          (t.reward + gamma * (if t.absorbing then 0 else next_q t.next_state)
            - predict (t.state, t.action))) ∧
    TD.fit predict learning_rate gamma next_q dataset =
      TD.fit predict learning_rate gamma next_q [t] ∧
    (t.absorbing = true → predict (t.state, t.action) = 0 →
      TD.fit predict learning_rate gamma next_q dataset =
        some ((t.state, t.action),
          learning_rate (t.state, t.action) * t.reward)) := by
  refine ⟨by simp [TD.fit, h], by simp [TD.fit, h], ?_⟩
  intro habs hzero
  simp [TD.fit, h, habs, hzero]

/-- Witness for C3: a single absorbing transition with reward `5`, a zero
approximator and `alpha = 1/10`, `gamma = 9/10` produces the fit target
`1/2` at key `(0, 1)`. -/
theorem td_fit_uses_last_transition_witness :
    TD.fit (fun _ => 0) (fun _ => (1 : ℚ)/10) (9/10) (fun _ => 0)
      [⟨0, 1, 5, 0, true⟩] = some ((0, 1), 1/2) := by
  have h := td_fit_uses_last_transition (fun _ => 0) (fun _ => (1 : ℚ)/10)
    (9/10) (fun _ => 0) [⟨0, 1, 5, 0, true⟩] ⟨0, 1, 5, 0, true⟩ rfl
  have h3 := h.2.2 rfl rfl
  rw [h3]
  norm_num

/-- One step of the maximum search over actions: keep the incumbent unless
the candidate's predicted value is strictly larger (ties keep the earlier
action, as `np.argmax` does). -/
def argmaxStep (f : ℤ → ℚ) (best x : ℤ) : ℤ := if f x > f best then x else best

/-- Action attaining the maximal value of `f` over a list of actions
(`none` on the empty list, where numpy's reduction raises). -/
def argmaxList (f : ℤ → ℚ) : List ℤ → Option ℤ
  | [] => none
  | a :: as => some (as.foldl (argmaxStep f) a)

/-- Modelled from the spec: `max_QA` of `PyPi.utils.dataset` (not in `src/`).
Per §4.2/§4.4 of the spec it returns the maximal predicted action value at a
state over the enumerable action set together with an action attaining it. -/
def max_QA (f : ℤ → ℚ) (actions : List ℤ) : Option (ℚ × ℤ) :=
  (argmaxList f actions).map (fun a => (f a, a))

theorem argmax_foldl_mem (f : ℤ → ℚ) :
    ∀ (l : List ℤ) (a : ℤ),
      l.foldl (argmaxStep f) a = a ∨ l.foldl (argmaxStep f) a ∈ l := by
  intro l
  induction l with
  | nil => intro a; left; rfl
  | cons y ys ih =>
    intro a
    simp only [List.foldl_cons]
    rcases ih (argmaxStep f a y) with h | h
    · rw [h]
      unfold argmaxStep
      by_cases hy : f y > f a
      · right; simp [hy]
      · left; simp [hy]
    · right; exact List.mem_cons_of_mem _ h

theorem argmax_foldl_le (f : ℤ → ℚ) :
    ∀ (l : List ℤ) (a : ℤ),
      f a ≤ f (l.foldl (argmaxStep f) a) ∧
      ∀ x ∈ l, f x ≤ f (l.foldl (argmaxStep f) a) := by
  intro l
  induction l with
  | nil => intro a; exact ⟨le_refl _, by simp⟩
  | cons y ys ih =>
    intro a
    simp only [List.foldl_cons]
    obtain ⟨h1, h2⟩ := ih (argmaxStep f a y)
    have hstep : f a ≤ f (argmaxStep f a y) ∧ f y ≤ f (argmaxStep f a y) := by
      unfold argmaxStep
      by_cases hy : f y > f a
      · simp only [hy, if_pos]; exact ⟨le_of_lt hy, le_refl _⟩
      · simp only [hy, if_neg, not_false_iff]; exact ⟨le_refl _, le_of_not_lt hy⟩
    refine ⟨le_trans hstep.1 h1, ?_⟩
    intro x hx
    rcases List.mem_cons.mp hx with hxy | hxys
    · subst hxy; exact le_trans hstep.2 h1
    · exact h2 x hxys

/-- On a nonempty action list, `max_QA` returns the value of an action of the
list that is greater than or equal to every predicted value. -/
theorem max_QA_spec (f : ℤ → ℚ) (actions : List ℤ) (h : actions ≠ []) :
    ∃ a, a ∈ actions ∧ max_QA f actions = some (f a, a) ∧
      ∀ b ∈ actions, f b ≤ f a := by
  cases actions with
  | nil => exact absurd rfl h
  | cons y ys =>
    refine ⟨ys.foldl (argmaxStep f) y, ?_, rfl, ?_⟩
    · rcases argmax_foldl_mem f ys y with he | he
      · rw [he]; exact List.mem_cons_self y ys
      · exact List.mem_cons_of_mem _ he
    · intro b hb
      obtain ⟨h1, h2⟩ := argmax_foldl_le f ys y
      rcases List.mem_cons.mp hb with hby | hbys
      · exact hby ▸ h1
      · exact h2 b hbys

/-- Learning-rate schedule, an external collaborator per §6 of the spec: a
stateful callable keyed by a state-action pair; each call returns the step
size and advances an internal visit counter (schedules decay with calls).
A deep copy is a plain value copy of this record. -/
structure LRSchedule where
  counter : ℕ
  rate : ℕ → (ℤ × ℤ) → ℚ
deriving Inhabited

/-- Calling the schedule: yields the step size for the pair at the current
internal counter, and the schedule with its counter advanced. -/
def LRSchedule.call (lr : LRSchedule) (sa : ℤ × ℤ) : ℚ × LRSchedule :=
  (lr.rate lr.counter sa, ⟨lr.counter + 1, lr.rate⟩)

/-- Ensemble approximator, an external collaborator per §6: it exposes
`n_models` and index-addressable sub-models; each sub-model predicts a value
for a state-action pair. -/
structure Ensemble where
  n_models : ℕ
  model : ℕ → (ℤ × ℤ) → ℚ

/-- State of a `DoubleQLearning` agent after construction: the ensemble, the
two deep-copied learning-rate schedules (`self.learning_rate[idx]`), and the
`mdp_info` configuration (`gamma` and the enumerated action space). -/
structure DQAgent where
  approximator : Ensemble
  learning_rate : ℕ → LRSchedule
  gamma : ℚ
  actions : List ℤ

/-- `DoubleQLearning._next_q(next_state, approximator_idx)`: the argmax
action of the selected model at `next_state` (via `max_QA`), evaluated by the
other model `self.approximator[1 - approximator_idx]`. -/
def DoubleQLearning._next_q (ag : DQAgent) (next_state : ℤ)
    (approximator_idx : ℕ) : Option ℚ :=
  (max_QA (fun a => ag.approximator.model approximator_idx (next_state, a))
      ag.actions).map
    (fun p => ag.approximator.model (1 - approximator_idx) (next_state, p.2))

/-- Claim C4: for every next state and selected index, Double Q-Learning's
resolver returns the prediction of the model not selected, evaluated at an
action that maximizes the selected model's prediction over the enumerated
action space. -/
theorem double_next_q_cross_evaluation (ag : DQAgent) (next_state : ℤ)
    (idx : ℕ) (h : ag.actions ≠ []) :
    ∃ a, a ∈ ag.actions ∧
      (∀ b ∈ ag.actions,
        ag.approximator.model idx (next_state, b) ≤
          ag.approximator.model idx (next_state, a)) ∧
      DoubleQLearning._next_q ag next_state idx =
        some (ag.approximator.model (1 - idx) (next_state, a)) := by
  obtain ⟨a, hmem, heq, hle⟩ :=
    max_QA_spec (fun b => ag.approximator.model idx (next_state, b))
      ag.actions h
  exact ⟨a, hmem, hle, by simp [DoubleQLearning._next_q, heq]⟩

/-- Witness for C4: with a two-action space, selected model `0` predicting
the action index itself and the other model constantly `5`, the resolver
returns `5`. -/
theorem double_next_q_cross_evaluation_witness :
    DoubleQLearning._next_q
      ⟨⟨2, fun i sa => if i = 0 then (sa.2 : ℚ) else 5⟩,
        fun _ => ⟨0, fun _ _ => 1/10⟩, 9/10, [0, 1]⟩ 9 0 = some 5 := by
  obtain ⟨a, _, _, heq⟩ := double_next_q_cross_evaluation
    ⟨⟨2, fun i sa => if i = 0 then (sa.2 : ℚ) else 5⟩,
      fun _ => ⟨0, fun _ _ => 1/10⟩, 9/10, [0, 1]⟩ 9 0 (by decide)
  rw [heq]
  simp

/-- `DoubleQLearning.fit(dataset)`: draws the model index from the ambient
uniform draw `u` (`np.random.uniform()`, passed in explicitly), then runs the
TD update through the selected model's `predict`/`fit` and the selected
learning-rate schedule only; the resolver is `DoubleQLearning._next_q` with
the selected index.  The returned agent carries the selected sub-model
updated at the fitted key and the selected schedule advanced. -/
def DoubleQLearning.fit (ag : DQAgent) (u : ℚ) (dataset : List Transition) :
    Option DQAgent := do
  let t ← dataset.getLast?
  let sa := (t.state, t.action)
  let approximator_idx := if u < 1/2 then 0 else 1
  let q_current := ag.approximator.model approximator_idx sa
  let q_nextOpt : Option ℚ := if t.absorbing then some 0 else
    DoubleQLearning._next_q ag t.next_state approximator_idx
  let q_next ← q_nextOpt
  let alr := (ag.learning_rate approximator_idx).call sa
  let q := q_current + alr.1 * (t.reward + ag.gamma * q_next - q_current)
  pure { ag with
    approximator := ⟨ag.approximator.n_models,
      Function.update ag.approximator.model approximator_idx
        (Function.update (ag.approximator.model approximator_idx) sa q)⟩,
    learning_rate := Function.update ag.learning_rate approximator_idx alr.2 }

/-- Claim C6: a `DoubleQLearning.fit` call selects index `0` exactly when the
uniform draw is below `1/2` and index `1` otherwise, and routes the whole
update to the selected index: the unselected sub-model and the unselected
learning-rate schedule are unchanged, the selected schedule's counter
advances by one, and the selected sub-model changes at most at the fitted
state-action key. -/
theorem double_fit_updates_only_selected (ag : DQAgent) (u : ℚ)
    (dataset : List Transition) (t : Transition) (idx : ℕ)
    (h : dataset.getLast? = some t)
    (hidx : idx = if u < 1/2 then 0 else 1)
    (hres : t.absorbing = true ∨ ag.actions ≠ []) :
    ∃ ag', DoubleQLearning.fit ag u dataset = some ag' ∧
      (u < 1/2 → idx = 0) ∧
      (¬ u < 1/2 → idx = 1) ∧
      (∀ j, j ≠ idx → ag'.approximator.model j = ag.approximator.model j) ∧
      (∀ j, j ≠ idx → ag'.learning_rate j = ag.learning_rate j) ∧
      (ag'.learning_rate idx).counter = (ag.learning_rate idx).counter + 1 ∧
      (ag'.learning_rate idx).rate = (ag.learning_rate idx).rate ∧
      (∀ sa', sa' ≠ (t.state, t.action) →
        ag'.approximator.model idx sa' = ag.approximator.model idx sa') ∧
      (∃ q, ag'.approximator.model idx =
        Function.update (ag.approximator.model idx) (t.state, t.action) q) ∧
      ag'.approximator.n_models = ag.approximator.n_models ∧
      ag'.gamma = ag.gamma ∧ ag'.actions = ag.actions := by
  subst hidx
  have hqn : ∃ qn, (if t.absorbing then (some (0 : ℚ) : Option ℚ) else
      DoubleQLearning._next_q ag t.next_state (if u < 1/2 then 0 else 1)) =
        some qn := by
    cases habs : t.absorbing with
    | true => exact ⟨0, by simp⟩
    | false =>
      rcases hres with habs' | hact
      · rw [habs] at habs'; exact absurd habs' (by simp)
      · obtain ⟨a, _, heq, _⟩ := max_QA_spec
          (fun b => ag.approximator.model (if u < 1/2 then 0 else 1)
            (t.next_state, b)) ag.actions hact
        refine ⟨ag.approximator.model (1 - if u < 1/2 then 0 else 1)
          (t.next_state, a), ?_⟩
        simp only [habs, Bool.false_eq_true, if_false,
          DoubleQLearning._next_q, heq, Option.map_some']
  obtain ⟨qn, hqn⟩ := hqn
  unfold DoubleQLearning.fit
  rw [h]
  simp only [Option.bind_eq_bind, Option.some_bind']
  rw [hqn]
  simp only [Option.some_bind']
  refine ⟨_, rfl, ?_, ?_, ?_, ?_, ?_, ?_, ?_, ?_, ?_, ?_, ?_⟩
  · intro h'; rw [if_pos h']
  · intro h'; rw [if_neg h']
  · intro j hj; exact Function.update_noteq hj _ _
  · intro j hj; exact Function.update_noteq hj _ _
  · dsimp only; rw [Function.update_same]; rfl
  · dsimp only; rw [Function.update_same]; rfl
  · intro sa' hsa'
    dsimp only
    rw [Function.update_same]
    exact Function.update_noteq hsa' _ _
  · dsimp only
    rw [Function.update_same]
    exact ⟨_, rfl⟩
  · rfl
  · rfl
  · rfl

/-- Witness for C6: with the coin `u = 0` (selecting index `0`) and an
absorbing transition, the fit succeeds and leaves the schedule and sub-model
of index `1` untouched while advancing schedule `0`. -/
theorem double_fit_updates_only_selected_witness :
    ∃ ag', DoubleQLearning.fit
        ⟨⟨2, fun _ _ => 0⟩, fun _ => ⟨0, fun _ _ => 1/10⟩, 9/10, [0, 1]⟩ 0
        [⟨0, 1, 5, 0, true⟩] = some ag' ∧
      ag'.learning_rate 1 =
        (⟨⟨2, fun _ _ => 0⟩, fun _ => ⟨0, fun _ _ => 1/10⟩, 9/10,
          [0, 1]⟩ : DQAgent).learning_rate 1 ∧
      ag'.approximator.model 1 =
        (⟨⟨2, fun _ _ => 0⟩, fun _ => ⟨0, fun _ _ => 1/10⟩, 9/10,
          [0, 1]⟩ : DQAgent).approximator.model 1 ∧
      (ag'.learning_rate 0).counter = 1 := by
  obtain ⟨ag', hfit, _, _, hmodels, hlrs, hcount, _, _, _, _, _, _⟩ :=
    double_fit_updates_only_selected
      ⟨⟨2, fun _ _ => 0⟩, fun _ => ⟨0, fun _ _ => 1/10⟩, 9/10, [0, 1]⟩ 0
      [⟨0, 1, 5, 0, true⟩] ⟨0, 1, 5, 0, true⟩ 0 rfl (by norm_num)
      (Or.inl rfl)
  exact ⟨ag', hfit, hlrs 1 (by decide), hmodels 1 (by decide), hcount⟩

/-- `DoubleQLearning.__init__`: the `super().__init__` chain runs first (the
`TD` initializer pops the learning rate; the base `Agent` initializer,
modelled from the spec since `PyPi/algorithms/agent.py` is not in `src/`,
stores the approximator and the `mdp_info` configuration on the agent), then
`self.learning_rate` becomes two deep copies of the schedule, then the
`assert self.approximator.n_models == 2` runs; a failing assert aborts
construction. -/
def DoubleQLearning.init (approximator : Ensemble) (learning_rate : LRSchedule)
    (gamma : ℚ) (actions : List ℤ) : Except PyErr DQAgent :=
  let ag : DQAgent := ⟨approximator, fun _ => learning_rate, gamma, actions⟩
  if approximator.n_models = 2 then .ok ag else .error .assertionError

/-- Claim C8: constructing a `DoubleQLearning` agent yields a usable agent
exactly when the ensemble has exactly two models; otherwise construction
fails with the assertion error. -/
theorem double_init_requires_two_models (approximator : Ensemble)
    (learning_rate : LRSchedule) (gamma : ℚ) (actions : List ℤ) :
    (∃ ag, DoubleQLearning.init approximator learning_rate gamma actions =
      .ok ag) ↔ approximator.n_models = 2 := by
  by_cases h2 : approximator.n_models = 2
  · simp [DoubleQLearning.init, h2]
  · simp [DoubleQLearning.init, h2]

/-- State of a `SARSA` agent relevant to its resolver: the approximator's
`predict`, the agent's `draw_action` (modelled from the spec: Agent's
`draw_action`, in `PyPi/algorithms/agent.py` which is not in `src/`,
delegates to the policy's action-selection procedure `draw_action(state) ->
action` of §6), and the pending `self._next_action` slot the resolver
writes. -/
structure SARSAAgent where
  approximator : ℤ → ℤ → ℚ
  draw_action : ℤ → ℤ
  next_action : Option ℤ

/-- `SARSA._next_q(next_state)`: draws the next action from the agent's
policy, stores it in `self._next_action`, builds `sa_n = [next_state,
self._next_action]` and returns `self.approximator.predict(sa_n)`.  The
result pair is (agent after the mutation, returned value). -/
def SARSA._next_q (ag : SARSAAgent) (next_state : ℤ) : SARSAAgent × ℚ :=
  let a := ag.draw_action next_state
  let ag' := { ag with next_action := some a }
  (ag', ag'.approximator next_state a)

/-- Claim C7: SARSA's resolver draws the next action via the agent's policy
procedure, stores it as the pending next action, and returns the prediction
for the drawn action; whenever some action of the space has a strictly
larger prediction than the drawn one (a non-greedy draw), the returned value
is strictly below the maximal action value, hence not the max. -/
theorem sarsa_next_q_on_policy (ag : SARSAAgent) (next_state : ℤ)
    (actions : List ℤ) :
    (SARSA._next_q ag next_state).1.next_action =
      some (ag.draw_action next_state) ∧
    (SARSA._next_q ag next_state).2 =
      ag.approximator next_state (ag.draw_action next_state) ∧
    (SARSA._next_q ag next_state).1.approximator = ag.approximator ∧
    (SARSA._next_q ag next_state).1.draw_action = ag.draw_action ∧
    (∀ p, max_QA (fun a => ag.approximator next_state a) actions = some p →
      (∃ b ∈ actions, ag.approximator next_state (ag.draw_action next_state) <
        ag.approximator next_state b) →
      (SARSA._next_q ag next_state).2 < p.1) := by
  refine ⟨rfl, rfl, rfl, rfl, ?_⟩
  intro p hp hex
  obtain ⟨b, hb, hlt⟩ := hex
  have hne : actions ≠ [] := List.ne_nil_of_mem hb
  obtain ⟨a, hmem, heq, hle⟩ :=
    max_QA_spec (fun a => ag.approximator next_state a) actions hne
  have hpa : p = (ag.approximator next_state a, a) :=
    (Option.some.inj (heq.symm.trans hp)).symm
  subst hpa
  exact lt_of_lt_of_le hlt (hle b hb)

/-- Witness for C7: with predictions `0` for action `0` and `1` for action
`1`, and a policy drawing action `0`, the resolver stores action `0` and
returns a value strictly below the maximal value `1`. -/
theorem sarsa_next_q_on_policy_witness :
    (SARSA._next_q ⟨fun _ a => if a = 1 then 1 else 0, fun _ => 0, none⟩
      0).1.next_action = some 0 ∧
    (SARSA._next_q ⟨fun _ a => if a = 1 then 1 else 0, fun _ => 0, none⟩
      0).2 < 1 := by
  have h := sarsa_next_q_on_policy
    ⟨fun _ a => if a = 1 then 1 else 0, fun _ => 0, none⟩ 0 [0, 1]
  refine ⟨h.1, ?_⟩
  exact h.2.2.2.2 ((1 : ℚ), 1) (by decide) ⟨1, by decide, by decide⟩

/-- `CollectMaxQ` callback state (`PyPi/utils/callbacks.py`): the
approximator reference, the fixed state, the fixed action set, and the
internal `_max_Qs` log. -/
structure CollectMaxQ where
  approximator : ℤ → ℤ → ℚ
  state : ℤ
  action_values : List ℤ
  max_Qs : List ℚ

/-- `CollectMaxQ.__init__(approximator, state, action_values)`: stores the
three references and an empty log. -/
def CollectMaxQ.init (approximator : ℤ → ℤ → ℚ) (state : ℤ)
    (action_values : List ℤ) : CollectMaxQ :=
  ⟨approximator, state, action_values, []⟩

/-- `CollectMaxQ.__call__()`: queries `max_QA` at the stored state over the
stored action set and appends the maximal value (`max_Q[0]`) to the log;
`none` models the numpy error on an empty action set. -/
def CollectMaxQ.call (c : CollectMaxQ) : Option CollectMaxQ :=
  (max_QA (fun a => c.approximator c.state a) c.action_values).map
    (fun p => { c with max_Qs := c.max_Qs ++ [p.1] })

/-- `CollectMaxQ.get_values()`: returns the log. -/
def CollectMaxQ.get_values (c : CollectMaxQ) : List ℚ := c.max_Qs

/-- `n` successive invocations of the callback. -/
def CollectMaxQ.callN : ℕ → CollectMaxQ → Option CollectMaxQ
  | 0, c => some c
  | n + 1, c => (CollectMaxQ.call c).bind (CollectMaxQ.callN n)

theorem collect_call_step (c : CollectMaxQ) (h : c.action_values ≠ []) :
    ∃ c', CollectMaxQ.call c = some c' ∧
      c'.approximator = c.approximator ∧ c'.state = c.state ∧
      c'.action_values = c.action_values ∧
      ∃ a ∈ c.action_values,
        c'.max_Qs = c.max_Qs ++ [c.approximator c.state a] ∧
        ∀ b ∈ c.action_values,
          c.approximator c.state b ≤ c.approximator c.state a := by
  obtain ⟨a, hmem, heq, hle⟩ :=
    max_QA_spec (fun a => c.approximator c.state a) c.action_values h
  refine ⟨{ c with max_Qs := c.max_Qs ++ [c.approximator c.state a] },
    ?_, rfl, rfl, rfl, a, hmem, rfl, hle⟩
  simp only [CollectMaxQ.call, heq, Option.map_some']

theorem collect_callN_length (n : ℕ) :
    ∀ c : CollectMaxQ, c.action_values ≠ [] →
      ∃ cn, CollectMaxQ.callN n c = some cn ∧
        cn.max_Qs.length = c.max_Qs.length + n ∧
        cn.action_values = c.action_values := by
  induction n with
  | zero => intro c h; exact ⟨c, rfl, rfl, rfl⟩
  | succ n ih =>
    intro c h
    obtain ⟨c', hc', _, _, hav, a, _, hlog, _⟩ := collect_call_step c h
    obtain ⟨cn, hcn, hlen, hav2⟩ := ih c' (hav ▸ h)
    refine ⟨cn, ?_, ?_, ?_⟩
    · simp only [CollectMaxQ.callN, hc', Option.some_bind', hcn]
    · rw [hlen, hlog, List.length_append]
      simp only [List.length_singleton]
      omega
    · rw [hav2, hav]

/-- Claim C10: every invocation of the observation callback appends exactly
one value — the maximum over the stored action set of the approximator's
prediction at the stored state — without touching the approximator, state or
action set; `get_values` returns all appended values in order, so after `n`
invocations from a freshly constructed callback the log has exactly `n`
entries. -/
theorem collect_max_q_appends_max (approximator : ℤ → ℤ → ℚ) (s : ℤ)
    (action_values : List ℤ) (h : action_values ≠ []) :
    (∀ c : CollectMaxQ, c.approximator = approximator → c.state = s →
      c.action_values = action_values →
      ∃ c', CollectMaxQ.call c = some c' ∧
        c'.approximator = approximator ∧ c'.state = s ∧
        c'.action_values = action_values ∧
        ∃ a ∈ action_values,
          c'.get_values = c.get_values ++ [approximator s a] ∧
          ∀ b ∈ action_values, approximator s b ≤ approximator s a) ∧
    (∀ n, ∃ cn, CollectMaxQ.callN n
        (CollectMaxQ.init approximator s action_values) = some cn ∧
      cn.get_values.length = n) := by
  constructor
  · intro c h1 h2 h3
    subst h1; subst h2; subst h3
    exact collect_call_step c h
  · intro n
    obtain ⟨cn, hcn, hlen, _⟩ := collect_callN_length n
      (CollectMaxQ.init approximator s action_values) h
    exact ⟨cn, hcn,
      by simpa [CollectMaxQ.init, CollectMaxQ.get_values] using hlen⟩

/-- Witness for C10: two invocations on the identity-valued approximator at
state `0` with actions `{0, 1}` succeed and leave a log of length `2`. -/
theorem collect_max_q_appends_max_witness :
    ∃ cn, CollectMaxQ.callN 2
        (CollectMaxQ.init (fun _ a => (a : ℚ)) 0 [0, 1]) = some cn ∧
      cn.get_values.length = 2 :=
  (collect_max_q_appends_max (fun _ a => (a : ℚ)) 0 [0, 1] (by decide)).2 2

/-- numpy fancy indexing `arr[rows, col]` with an integer index array `rows`
and a scalar column index broadcast against it: gathers `arr[r, col]` for
each `r`.  The source's `self._sigma[sa_n, a]` with `sa_n = [next_state, a]`
is the index tuple `([next_state, a], a)`, i.e. `rows = [next_state, a]` and
`col = a`, and gathers the two elements
`[sigma[next_state, a], sigma[a, a]]`. -/
def fancyPairIndex {α : Type} (arr : ℤ → ℤ → α) (rows : List ℤ) (col : ℤ) :
    List α :=
  rows.map (fun r => arr r col)

/-- numpy assignment of a gathered result into one scalar slot
(`sigmas[0, i] = v`): succeeds only when the right-hand side has exactly one
element; a multi-element right-hand side raises `ValueError` (cannot
broadcast a size-2 result into a scalar slot). -/
def assignScalar {α : Type} : List α → Except PyErr α
  | [x] => .ok x
  | _ => .error .valueError

/-- `np.argmax(row)`: index of the first maximal element of a sample row
(ties keep the first index). -/
def argmaxIdx (row : List ℚ) : ℕ :=
  (row.enum.foldl (fun best p => if p.2 > best.2 then p else best)
    (0, row.headD 0)).1

/-- Insertion into a sorted list of naturals. -/
def insertSorted (x : ℕ) : List ℕ → List ℕ
  | [] => [x]
  | y :: ys => if x ≤ y then x :: y :: ys else y :: insertSorted x ys

/-- Ascending insertion sort on naturals. -/
def sortNat (xs : List ℕ) : List ℕ := xs.foldr insertSorted []

/-- `np.unique(xs, return_counts=True)`: the sorted distinct values paired
with their multiplicities; a value that does not occur in `xs` contributes
no entry. -/
def uniqueCounts (xs : List ℕ) : List (ℕ × ℕ) :=
  (sortNat xs.dedup).map (fun v => (v, xs.count v))

/-- The weight vector `w = max_count / self.precision` the sampling branch
computes from the per-row argmax indices of the sample matrix. -/
def sampleWeights (precision : ℚ) (rows : List (List ℚ)) : List ℚ :=
  (uniqueCounts (rows.map argmaxIdx)).map (fun p => (p.2 : ℚ) / precision)

/-- `np.dot` of two vectors; numpy raises on a length mismatch. -/
def npDot (xs ys : List ℚ) : Except PyErr ℚ :=
  if xs.length = ys.length then
    .ok ((xs.zip ys).foldl (fun acc p => acc + p.1 * p.2) 0)
  else .error .valueError

/-- `WeightedQLearning._next_q(next_state)`.  The per-action loop fills
`means[0, i]` with the approximator prediction and then attempts
`sigmas[0, i] = self._sigma[sa_n, a]`, whose right-hand side gathers two
elements (`fancyPairIndex`), so the scalar-slot assignment fails.  The
`np.random.normal` draws of the sampling branch are abstracted as the
`sampleRows` input (the `precision`-times repeated mean/sigma rows
parameterize those draws, so the gathered means and sigmas are not otherwise
consumed); the final `np.dot(w, predict(sa))` pairs the weights with one
prediction per enumerated action. -/
def WeightedQLearning._next_q (predict : ℤ → ℤ → ℚ) (sigma : ℤ → ℤ → ℝ)
    (sampling : Bool) (precision : ℚ) (sampleRows : List (List ℚ))
    (actions : List ℤ) (next_state : ℤ) : Except PyErr ℚ := do
  let _means_sigmas ← actions.mapM (fun a => do
    let m := predict next_state a
    let s ← assignScalar (fancyPairIndex sigma [next_state, a] a)
    pure (m, s))
  if sampling then
    let w := sampleWeights precision sampleRows
    npDot w (actions.map (fun a => predict next_state a))
  else
    .error .notImplementedError

/-- Claim C1, evaluated at the failing input: with two legal actions the
resolver raises `ValueError` in the per-action loop (the `sigma` gather is a
two-element result assigned to a scalar slot) instead of returning the
weighted sum; and, independently, the sampling branch's weight computation
drops an action that never attains a row argmax rather than giving it weight
`0`: with two actions, `precision = 2` and both sample rows maximal at
action `0`, the weights are `[1]` — length `1`, misaligned with the two
enumerated actions — not `[1, 0]`. -/
theorem weighted_next_q_raises_and_unique_drops :
    WeightedQLearning._next_q (fun _ _ => 0) (fun _ _ => 0) true 2
        [[3, 1], [2, 0]] [0, 1] 5 = .error .valueError ∧
    sampleWeights 2 [[3, 1], [2, 0]] = [1] ∧
    (sampleWeights 2 [[3, 1], [2, 0]]).length ≠ ([0, 1] : List ℤ).length := by
  have hidx : ([[3, 1], [2, 0]] : List (List ℚ)).map argmaxIdx = [0, 0] := by
    decide
  have hw : sampleWeights 2 [[3, 1], [2, 0]] = [1] := by
    unfold sampleWeights
    rw [hidx]
    have huc : uniqueCounts [0, 0] = [(0, 2)] := by decide
    rw [huc]
    simp only [List.map_cons, List.map_nil]
    norm_num
  refine ⟨rfl, hw, ?_⟩
  rw [hw]
  decide

/-- Claim C9: with `sampling = False` and any nonempty action space, the
resolver fails — but with the `ValueError` of the per-action sigma
gather/assignment, reached before the `sampling` flag is ever tested, not
with the `NotImplementedError` of the unimplemented non-sampling branch. -/
theorem weighted_next_q_sampling_disabled_value_error
    (predict : ℤ → ℤ → ℚ) (sigma : ℤ → ℤ → ℝ) (precision : ℚ)
    (sampleRows : List (List ℚ)) (actions : List ℤ) (next_state : ℤ)
    (h : actions ≠ []) :
    WeightedQLearning._next_q predict sigma false precision sampleRows
        actions next_state = .error .valueError ∧
    WeightedQLearning._next_q predict sigma false precision sampleRows
        actions next_state ≠ .error .notImplementedError := by
  cases actions with
  | nil => exact absurd rfl h
  | cons a as =>
    have heq : WeightedQLearning._next_q predict sigma false precision
        sampleRows (a :: as) next_state = .error .valueError := rfl
    refine ⟨heq, ?_⟩
    rw [heq]
    intro hc
    exact PyErr.noConfusion (Except.error.inj hc)

/-- Witness for C9: the single-action space `{0}` with any data. -/
theorem weighted_next_q_sampling_disabled_value_error_witness :
    WeightedQLearning._next_q (fun _ _ => 0) (fun _ _ => 0) false 1 [] [0] 7 =
      .error .valueError ∧
    WeightedQLearning._next_q (fun _ _ => 0) (fun _ _ => 0) false 1 [] [0] 7 ≠
      .error .notImplementedError :=
  weighted_next_q_sampling_disabled_value_error (fun _ _ => 0) (fun _ _ => 0)
    1 [] [0] 7 (by decide)

/-- The four per-key statistics arrays of `WeightedQLearning` (dense arrays
of the approximator's shape, modelled as total functions on state-action
keys).  The update counts live in `ℕ` (the source's float counters are only
incremented by `1` and compared with `> 1`); the sigma estimates live in `ℝ`
because their update takes a square root. -/
structure WQStats where
  n_updates : ℤ × ℤ → ℕ
  sigma : ℤ × ℤ → ℝ
  Q2 : ℤ × ℤ → ℚ
  weights_var : ℤ × ℤ → ℚ

/-- `WeightedQLearning.fit(dataset)`: the TD update (with the resolver
abstracted as the `next_q` argument, as in `TD.fit`), returning the
`(sa, q)` pair passed to `approximator.fit` together with the statistics
after the post-fit maintenance:
`self._n_updates[sa] += 1`;
`self._Q2[sa] = self._Q2[sa] + alpha * target**2 - alpha * self._Q2[sa]`;
and, when the incremented count exceeds `1`,
`self._weights_var[sa] = (1 - alpha)**2 * self._weights_var[sa] + alpha**2`,
`n = 1. / self._weights_var[sa]`,
`diff = np.clip(self._Q2[sa] - q**2., 0, np.inf)` (the upper bound is a
no-op, so the clip is `max · 0`), and
`self._sigma[sa] = np.sqrt(diff / n)`. -/
noncomputable def WeightedQLearning.fit (predict learning_rate : ℤ × ℤ → ℚ)
    (gamma : ℚ) (next_q : ℤ → ℚ) (stats : WQStats)
    (dataset : List Transition) : Option (((ℤ × ℤ) × ℚ) × WQStats) := do
  let t ← dataset.getLast?
  let sa := (t.state, t.action)
  let q_current := predict sa
  let q_next := if t.absorbing then 0 else next_q t.next_state
  let target := t.reward + gamma * q_next
  let alpha := learning_rate sa
  let q := q_current + alpha * (target - q_current)
  let n_updates' := Function.update stats.n_updates sa (stats.n_updates sa + 1)
  let Q2' := Function.update stats.Q2 sa
    (stats.Q2 sa + alpha * target ^ 2 - alpha * stats.Q2 sa)
  if n_updates' sa > 1 then
    let weights_var' := Function.update stats.weights_var sa
      ((1 - alpha) ^ 2 * stats.weights_var sa + alpha ^ 2)
    let n := 1 / weights_var' sa
    let diff := Q2' sa - q ^ 2
    let diffc := max diff 0
    let sigma' := Function.update stats.sigma sa
      (Real.sqrt ((diffc / n : ℚ) : ℝ))
    pure ((sa, q), ⟨n_updates', sigma', Q2', weights_var'⟩)
  else
    pure ((sa, q), ⟨n_updates', stats.sigma, Q2', stats.weights_var⟩)

/-- Claim C2: a `WeightedQLearning.fit` call increments `n_updates` at the
fitted key by exactly one, updates `Q2` there by the exponential
second-moment recurrence with the same `alpha` and `target` as the
approximator fit, and updates `weights_var` and `sigma` if and only if the
incremented count exceeds one, with
`sigma = sqrt(max(Q2 - q_new^2, 0) * weights_var)` over the updated values
(the source's `sqrt(diff / n)` with `n = 1 / weights_var`). -/
theorem weighted_fit_statistics_recurrence (predict learning_rate : ℤ × ℤ → ℚ)
    (gamma : ℚ) (next_q : ℤ → ℚ) (stats : WQStats)
    (dataset : List Transition) (t : Transition)
    (h : dataset.getLast? = some t) :
    ∃ S : WQStats,
      WeightedQLearning.fit predict learning_rate gamma next_q stats dataset =
        some (((t.state, t.action),
          predict (t.state, t.action) + learning_rate (t.state, t.action) *
            ((t.reward + gamma *
              (if t.absorbing then 0 else next_q t.next_state)) -
              predict (t.state, t.action))), S) ∧
      S.n_updates (t.state, t.action) =
        stats.n_updates (t.state, t.action) + 1 ∧
      S.Q2 (t.state, t.action) = stats.Q2 (t.state, t.action) +
        learning_rate (t.state, t.action) *
          (t.reward + gamma *
            (if t.absorbing then 0 else next_q t.next_state)) ^ 2 -
        learning_rate (t.state, t.action) * stats.Q2 (t.state, t.action) ∧
      (stats.n_updates (t.state, t.action) + 1 > 1 →
        S.weights_var (t.state, t.action) =
          (1 - learning_rate (t.state, t.action)) ^ 2 *
            stats.weights_var (t.state, t.action) +
          learning_rate (t.state, t.action) ^ 2 ∧
        S.sigma (t.state, t.action) =
          Real.sqrt (((max (S.Q2 (t.state, t.action) -
            (predict (t.state, t.action) + learning_rate (t.state, t.action) *
              ((t.reward + gamma *
                (if t.absorbing then 0 else next_q t.next_state)) -
                predict (t.state, t.action))) ^ 2) 0 *
            S.weights_var (t.state, t.action) : ℚ) : ℝ))) ∧
      (stats.n_updates (t.state, t.action) + 1 = 1 →
        S.weights_var = stats.weights_var ∧ S.sigma = stats.sigma) := by
  unfold WeightedQLearning.fit
  rw [h]
  simp only [Option.bind_eq_bind, Option.some_bind', Function.update_same]
  by_cases hgt : stats.n_updates (t.state, t.action) + 1 > 1
  · rw [if_pos hgt]
    refine ⟨_, rfl, ?_, ?_, ?_, ?_⟩
    · dsimp only; rw [Function.update_same]
    · dsimp only; rw [Function.update_same]
    · intro _
      constructor
      · dsimp only; rw [Function.update_same]
      · dsimp only
        rw [Function.update_same, Function.update_same, Function.update_same,
          div_div_eq_mul_div, div_one]
    · intro hone; omega
  · rw [if_neg hgt]
    refine ⟨_, rfl, ?_, ?_, ?_, ?_⟩
    · dsimp only; rw [Function.update_same]
    · dsimp only; rw [Function.update_same]
    · intro hcontra; exact absurd hcontra hgt
    · intro _; exact ⟨rfl, rfl⟩

/-- Witness for C2: a first-ever update (count going 0 to 1) on an absorbing
transition with reward `5`, all-zero statistics, `alpha = 1/10` and
`gamma = 9/10`: the fit target is `1/2`, the count becomes `1`, and `sigma`
is untouched. -/
theorem weighted_fit_statistics_recurrence_witness :
    ∃ S : WQStats,
      WeightedQLearning.fit (fun _ => 0) (fun _ => (1 : ℚ)/10) (9/10)
        (fun _ => 0) ⟨fun _ => 0, fun _ => 0, fun _ => 0, fun _ => 0⟩
        [⟨0, 1, 5, 0, true⟩] = some (((0, 1), 1/2), S) ∧
      S.n_updates (0, 1) = 1 ∧ S.sigma (0, 1) = 0 := by
  obtain ⟨S, hfit, hn, _, _, hlow⟩ :=
    weighted_fit_statistics_recurrence (fun _ => 0) (fun _ => (1 : ℚ)/10)
      (9/10) (fun _ => 0) ⟨fun _ => 0, fun _ => 0, fun _ => 0, fun _ => 0⟩
      [⟨0, 1, 5, 0, true⟩] ⟨0, 1, 5, 0, true⟩ rfl
  obtain ⟨hwv, hsig⟩ := hlow rfl
  refine ⟨S, ?_, ?_, ?_⟩
  · convert hfit using 4
    norm_num
  · simpa using hn
  · rw [hsig]

/-- Partially constructed `WeightedQLearning` object: each attribute slot is
`none` until the corresponding assignment statement has run; reading an
unassigned slot is an `AttributeError`.  The statistics slots hold functions
on the approximator-shaped key space. -/
structure WQSelf where
  name : Option String := none
  sampling : Option Bool := none
  precision : Option ℚ := none
  n_updates : Option ((ℤ × ℤ) → ℕ) := none
  sigma : Option ((ℤ × ℤ) → ℝ) := none
  Q2 : Option ((ℤ × ℤ) → ℚ) := none
  weights_var : Option ((ℤ × ℤ) → ℚ) := none
  approximator : Option Ensemble := none
  learning_rate : Option LRSchedule := none

/-- Reading `self.attr`: raises `AttributeError` when the slot has not been
assigned yet. -/
def pygetattr {α : Type} (x : Option α) : Except PyErr α :=
  match x with
  | some v => .ok v
  | none => .error .attributeError

/-- `WeightedQLearning.__init__(approximator, policy, **params)`, statement
by statement: set `self.__name__`, pop `sampling` and `precision` from the
params, then build the four statistics arrays, each from
`self.approximator.shape` — a read of the still-unassigned `approximator`
attribute — and only afterwards run `super().__init__(approximator, policy,
**params)`, whose `TD` part pops the learning rate and whose base `Agent`
part (modelled from the spec, `PyPi/algorithms/agent.py` is not in `src/`)
is the step that stores the approximator attribute on the agent.  `sigma`
would start as `np.ones(shape) * 1e10`. -/
def WeightedQLearning.init (approximator : Ensemble) (sampling : Bool)
    (precision : ℚ) (learning_rate : LRSchedule) : Except PyErr WQSelf := do
  let s : WQSelf := {}
  let s := { s with name := some "WeightedQLearning" }
  let s := { s with sampling := some sampling }
  let s := { s with precision := some precision }
  let _shape1 ← pygetattr s.approximator
  let s := { s with n_updates := some (fun _ => 0) }
  let _shape2 ← pygetattr s.approximator
  let s := { s with sigma := some (fun _ => ((10 : ℝ) ^ (10 : ℕ))) }
  let _shape3 ← pygetattr s.approximator
  let s := { s with Q2 := some (fun _ => 0) }
  let _shape4 ← pygetattr s.approximator
  let s := { s with weights_var := some (fun _ => 0) }
  let s := { s with learning_rate := some learning_rate }
  let s := { s with approximator := some approximator }
  pure s

/-- Claim C5, evaluated on the code: every construction of a
`WeightedQLearning` agent fails with `AttributeError`, because the statistics
arrays are built from `self.approximator.shape` before the base initializer
has stored `self.approximator`; no agent with the four initialized arrays is
ever produced. -/
theorem weighted_init_attribute_error (approximator : Ensemble)
    (sampling : Bool) (precision : ℚ) (learning_rate : LRSchedule) :
    WeightedQLearning.init approximator sampling precision learning_rate =
      .error .attributeError := rfl
